import Mathlib

/-
Verification development for the magazine recording engine
(source file: src/magazine/magazine.py).

The Python module keeps process-wide state in four class attributes of
Magazine: topics (dict mapping a topic name to a list of note strings),
figures (dict mapping a topic name to a list of figure handles),
references (list of strings) and dois (list of strings).  Python dicts
preserve insertion order and are modelled here as association lists;
figure handles (io.BytesIO objects) are modelled as opaque Nat tokens.
-/

namespace Magazine

/-- Left curly brace character, written via its code point so that brace
characters never appear literally in the file. -/
def lbrace : Char := Char.ofNat 123

/-- Right curly brace character. -/
def rbrace : Char := Char.ofNat 125

/-- Association-list lookup, first matching key wins; models Python dict
indexing restricted to the keys that are present. -/
def lookupAssoc (m : List (String × α)) (k : String) : Option α :=
  match m with
  | [] => Option.none
  | (k2, v) :: rest => if k2 = k then Option.some v else lookupAssoc rest k

/-- Models d[k].append(x) on a Python dict of lists: the entry of the first
matching key gets x appended; a missing key leaves the list unchanged (in
Python that would be a KeyError, but every call site runs assert_topic
first, which guarantees the key is present). -/
def appendAssoc (k : String) (x : α) : List (String × List α) → List (String × List α)
  | [] => []
  | (k2, v) :: rest =>
    if k2 = k then (k2, v ++ [x]) :: rest else (k2, v) :: appendAssoc k x rest

/-- The four process-wide collections of class Magazine
(magazine.py lines 45-48). -/
structure State where
  topics : List (String × List String)
  figures : List (String × List Nat)
  references : List String
  dois : List String
deriving DecidableEq, Repr

/-- The implicit initial state: all four collections empty. -/
def initState : State := { topics := [], figures := [], references := [], dois := [] }

/-- Magazine.assert_topic (magazine.py lines 53-73): if the topic is not a
key of Magazine.topics, an empty list is created for it in both
Magazine.topics and Magazine.figures.  Membership is tested against the
topics dict only, exactly as in the source. -/
def assert_topic (topic : String) (st : State) : State :=
  if st.topics.any (fun p => p.1 == topic) then st
  else { st with
          topics := st.topics ++ [(topic, [])],
          figures := st.figures ++ [(topic, [])] }

/-- Python values that can appear in the values tuple of Magazine.report.
The constructor none models the Python None object, nan models np.nan,
and the remaining constructors carry rendered data. -/
inductive PyVal where
  | none
  | nan
  | str (s : String)
  | int (n : Int)
deriving DecidableEq, Repr

/-- Rendering of a PyVal by str(), as used by a positional replacement
field without a format spec. -/
def pyvalToStr : PyVal → String
  | PyVal.none => "None"
  | PyVal.nan => "nan"
  | PyVal.str s => s
  | PyVal.int n => toString n

/-- The message argument of Magazine.report: a str, an io.BytesIO figure
handle, or any other object (modelled by its repr text). -/
inductive PyMsg where
  | str (s : String)
  | bytesIO (h : Nat)
  | other (r : String)
deriving DecidableEq, Repr

/-- Scanner for the positional fragment of str.format that the repository
uses: literal text, doubled braces as escapes, and the automatic
replacement field consisting of an opening and a closing brace with
nothing in between, which consumes the next positional value.  A stray
single brace or a missing positional value is a ValueError or IndexError
in Python and yields Option.none here.  Indexed or format-spec fields are
outside the modelled fragment and also map to Option.none; no call in the
repository or in the claims uses them. -/
def formatPosAux (vals : List String) : List Char → Option (List Char)
  | [] => Option.some []
  | c :: rest =>
    if c = lbrace then
      match rest with
      | [] => Option.none
      | c2 :: rest2 =>
        if c2 = lbrace then (formatPosAux vals rest2).map (fun t => lbrace :: t)
        else if c2 = rbrace then
          match vals with
          | [] => Option.none
          | v :: vs => (formatPosAux vs rest2).map (fun t => v.data ++ t)
        else Option.none
    else if c = rbrace then
      match rest with
      | [] => Option.none
      | c2 :: rest2 =>
        if c2 = rbrace then (formatPosAux vals rest2).map (fun t => rbrace :: t)
        else Option.none
    else (formatPosAux vals rest).map (fun t => c :: t)

/-- Models message.format applied to positional values, as called on
magazine.py line 102. -/
def format_pos (s : String) (vals : List String) : Option String :=
  (formatPosAux vals s.data).map String.mk

/-- Magazine.report (magazine.py lines 75-111).  The topic is asserted
first; a str message is formatted when values are present (each None
value replaced by np.nan beforehand, line 101) and appended to the topic
notes;
an io.BytesIO message is appended to the topic figures; any other message
only triggers log.warning.  Option.none models an exception escaping from
message.format. -/
def report (topic : String) (message : PyMsg) (values : List PyVal) (st : State) :
    Option State :=
  let st1 := assert_topic topic st
  match message with
  | PyMsg.str s =>
    if values.isEmpty then
      Option.some { st1 with topics := appendAssoc topic s st1.topics }
    else
      let values2 := values.map (fun v => if v = PyVal.none then PyVal.nan else v)
      match format_pos s (values2.map pyvalToStr) with
      | Option.some msg =>
        Option.some { st1 with topics := appendAssoc topic msg st1.topics }
      | Option.none => Option.none
  | PyMsg.bytesIO h =>
    Option.some { st1 with figures := appendAssoc topic h st1.figures }
  | PyMsg.other _ => Option.some st1

/-- Models re.search of the identifier pattern of Magazine.cite
(magazine.py line 130): anchored at the start of the string, the
characters one, zero, dot, then at least four decimal digits.  The
greedy repetition never needs backtracking because nothing follows it in
the pattern, so the search succeeds exactly when the first four
characters after the dot are digits. -/
def doiSearch (s : String) : Bool :=
  match s.data with
  | '1' :: '0' :: '.' :: rest => decide (4 ≤ (rest.takeWhile Char.isDigit).length)
  | _ => false

/-- Magazine.cite (magazine.py lines 113-136): each argument matching the
identifier pattern is appended to Magazine.dois, every other argument is
appended verbatim to Magazine.references. -/
def cite (refs : List String) (st : State) : State :=
  refs.foldl
    (fun s ref =>
      if doiSearch ref then { s with dois := s.dois ++ [ref] }
      else { s with references := s.references ++ [ref] })
    st

/-- Helper for Magazine.post: walks the requested topics in order,
asserting each and collecting the join of its note list. -/
def postAux : List String → State → List String → List String × State
  | [], st, acc => (acc, st)
  | t :: ts, st, acc =>
    let st1 := assert_topic t st
    let notes := (lookupAssoc st1.topics t).getD []
    postAux ts st1 (acc ++ [String.intercalate " " notes])

/-- Magazine.post (magazine.py lines 138-164): per requested topic the
notes are joined with a single space, and the per-topic strings are then
joined with a single space.  The state component records the implicit
topic creation performed by assert_topic. -/
def post (topics : List String) (st : State) : String × State :=
  let r := postAux topics st []
  (String.intercalate " " r.1, r.2)

/-- Helper for Magazine.figure: walks the requested topics in order,
asserting each and appending its figure handles to the accumulator. -/
def figureAux : List String → State → List Nat → List Nat × State
  | [], st, acc => (acc, st)
  | t :: ts, st, acc =>
    let st1 := assert_topic t st
    figureAux ts st1 (acc ++ ((lookupAssoc st1.figures t).getD []))

/-- Magazine.figure (magazine.py lines 166-194): concatenates the figure
lists of the requested topics into one flat list, creating missing
topics on the way. -/
def figure (topics : List String) (st : State) : List Nat × State :=
  figureAux topics st []

/-- Magazine.clean (magazine.py lines 230-239): resets all four
collections to empty. -/
def clean (_st : State) : State := initState

/-- Notes currently stored under a topic, empty when the topic is
unknown; the observable that read_notes exposes per topic. -/
def topicNotes (t : String) (st : State) : List String :=
  (lookupAssoc st.topics t).getD []

/-- Figure handles currently stored under a topic, empty when the topic
is unknown. -/
def topicFigures (t : String) (st : State) : List Nat :=
  (lookupAssoc st.figures t).getD []

/-- ASCII whitespace characters; the subset of the Python str whitespace
notion exercised by this repository. -/
def isPyWs (c : Char) : Bool :=
  c = ' ' || c = '\t' || c = '\n' || c = '\x0b' || c = '\x0c' || c = '\r'

/-- Models str.rstrip with no argument: removes trailing whitespace. -/
def rstrip (s : String) : String :=
  String.mk ((s.data.reverse.dropWhile isPyWs).reverse)

/-- Models list(set(...)) on the dois list (magazine.py line 217).  The
iteration order of a Python set is unspecified; this model fixes the
order of first occurrence, which is immaterial for every claim because
the produced list is only resolved and then sorted. -/
def dedupFirstAux (seen : List String) : List String → List String
  | [] => []
  | x :: xs =>
    if seen.contains x then dedupFirstAux seen xs
    else x :: dedupFirstAux (x :: seen) xs

/-- Duplicate removal keeping first occurrences. -/
def dedupFirst (l : List String) : List String := dedupFirstAux [] l

/-- Code-point lexicographic comparison of char lists, the order Python
uses to sort a list of str. -/
def charListLe : List Char → List Char → Bool
  | [], _ => true
  | _ :: _, [] => false
  | a :: as, b :: bs => if a = b then charListLe as bs else decide (a < b)

/-- Insertion into a sorted list of strings. -/
def insertSorted (x : String) : List String → List String
  | [] => [x]
  | y :: ys => if charListLe x.data y.data then x :: y :: ys else y :: insertSorted x ys

/-- Models list.sort on a list of str (ascending code-point
lexicographic order). -/
def sortStrings (l : List String) : List String := l.foldr insertSorted []

/-- Magazine.collect_references (magazine.py lines 196-228), parameterised
by the external CrossRef lookup, which returns one optional citation text
per requested identifier.  The local reflist is an alias of
Magazine.references, so the in-place extend on line 225 and the in-place
sort on line 227 both mutate Magazine.references; the dois list is
replaced by its deduplicated form on line 217 and is never emptied.  The
normalisation of a single str result to a one-element list on lines
222-223 is absorbed into the type of the resolve parameter. -/
def collect_references (resolve : List String → List (Option String)) (st : State) :
    List String × State :=
  if st.dois.length > 0 then
    let dois2 := dedupFirst st.dois
    let resolved := ((resolve dois2).filterMap id).map rstrip
    let refs2 := sortStrings (st.references ++ resolved)
    (refs2, { st with references := refs2, dois := dois2 })
  else
    let refs2 := sortStrings st.references
    (refs2, { st with references := refs2 })

/-- A concrete stand-in for the CrossRef lookup that resolves every
identifier to the citation text a. -/
def constResolve (ids : List String) : List (Option String) :=
  ids.map (fun _ => Option.some "a")

/-- SafeDict lookup (magazine.py lines 10-24): a missing key yields the
literal placeholder text, an opening brace, the key, a closing brace,
instead of raising KeyError. -/
def lookupSafe (m : List (String × String)) (k : String) : String :=
  match lookupAssoc m k with
  | Option.some v => v
  | Option.none => String.mk (lbrace :: k.data ++ [rbrace])

/-- Field names on which str.format_map raises or leaves the fragment
modelled here: an empty or all-digit name is a positional lookup, which
fails with IndexError because format_map passes no positional arguments;
a nested opening brace in a field name is a ValueError; the conversion,
format-spec, attribute and index markers start syntax the repository
never uses and are mapped to the error case of the model. -/
def badFieldName (nm : List Char) : Bool :=
  nm.isEmpty || nm.all Char.isDigit ||
    !(nm.all (fun c =>
        !(c = lbrace) && !(c = '!') && !(c = ':') && !(c = '.') && !(c = '[')))

mutual

/-- Scanner for str.format_map with a SafeDict mapping (magazine.py line
295): literal text is copied, doubled braces are escapes, an opening
brace starts a field that fmField consumes, and a lone closing brace is
a ValueError, modelled as Option.none. -/
def fmAux (m : List (String × String)) : List Char → Option (List Char)
  | [] => Option.some []
  | c :: rest =>
    if c = lbrace then
      match rest with
      | [] => Option.none
      | c2 :: rest2 =>
        if c2 = lbrace then (fmAux m rest2).map (fun t => lbrace :: t)
        else fmField m [] (c2 :: rest2)
    else if c = rbrace then
      match rest with
      | [] => Option.none
      | c2 :: rest2 =>
        if c2 = rbrace then (fmAux m rest2).map (fun t => rbrace :: t)
        else Option.none
    else (fmAux m rest).map (fun t => c :: t)
termination_by l => l.length

/-- Consumes a replacement field up to its closing brace, then performs
the SafeDict lookup on the accumulated name and splices the value in
verbatim; an unterminated field is a ValueError. -/
def fmField (m : List (String × String)) (acc : List Char) : List Char → Option (List Char)
  | [] => Option.none
  | c :: rest =>
    if c = rbrace then
      if badFieldName acc then Option.none
      else (fmAux m rest).map (fun t => (lookupSafe m (String.mk acc)).data ++ t)
    else fmField m (acc ++ [c]) rest
termination_by l => l.length

end

/-- Models str.format_map with a SafeDict argument, restricted to the
named-field fragment; see fmAux. -/
def format_map (s : String) (m : List (String × String)) : Option String :=
  (fmAux m s.data).map String.mk

/-- Capture group of the section patterns of _parse_docstring: with
re.DOTALL the non-greedy capture runs up to the first blank line (two
consecutive newline characters) or, failing that, to the end of the
string, in which case a final single newline is part of the capture. -/
def captureBody : List Char → List Char
  | [] => []
  | '\n' :: '\n' :: _ => []
  | c :: cs => c :: captureBody cs

/-- Removes an exact leading char-list prefix, if present. -/
def stripPrefixList : List Char → List Char → Option (List Char)
  | [], cs => Option.some cs
  | _ :: _, [] => Option.none
  | h :: hs, c :: cs => if c = h then stripPrefixList hs cs else Option.none

/-- After the section header literal, the patterns require one or more
whitespace characters, then one or more dashes, then a newline.  The
greedy runs need no backtracking: a shorter whitespace run would end on a
whitespace character where a dash is required, and a shorter dash run
would end on a dash where a newline is required, so taking the maximal
runs is exact. -/
def afterHeader (cs : List Char) : Option (List Char) :=
  match cs with
  | [] => Option.none
  | c :: _ =>
    if isPyWs c then
      match cs.dropWhile isPyWs with
      | [] => Option.none
      | d :: rest3 =>
        if d = '-' then
          match (d :: rest3).dropWhile (fun x => x = '-') with
          | [] => Option.none
          | nl :: rest5 => if nl = '\n' then Option.some rest5 else Option.none
        else Option.none
    else Option.none

/-- One attempted match of a section pattern at a fixed position. -/
def matchSectionAt (header : List Char) (cs : List Char) : Option (List Char) :=
  match stripPrefixList header cs with
  | Option.some rest =>
    match afterHeader rest with
    | Option.some body => Option.some (captureBody body)
    | Option.none => Option.none
  | Option.none => Option.none

/-- Leftmost-match search, trying every start position in order, as
re.search does. -/
def searchSectionAux (header : List Char) : List Char → Option (List Char)
  | [] => matchSectionAt header []
  | c :: cs =>
    match matchSectionAt header (c :: cs) with
    | Option.some b => Option.some b
    | Option.none => searchSectionAux header cs

/-- Models re.search of a section pattern of _parse_docstring (magazine.py
lines 291 and 303): the header literal, a whitespace run, a dash run, a
newline, then the non-greedy captured body. -/
def searchSection (header doc : String) : Option String :=
  (searchSectionAux header.data doc.data).map String.mk

/-- Models str.split on a newline separator: the list of lines, where a
trailing newline yields a final empty line and the empty string yields
one empty line. -/
def splitOnNewline : List Char → List (List Char)
  | [] => [[]]
  | c :: cs =>
    if c = '\n' then [] :: splitOnNewline cs
    else
      match splitOnNewline cs with
      | [] => [[c]]
      | l :: ls => (c :: l) :: ls

/-- Inverse of splitOnNewline: joins lines with single newlines. -/
def joinNewline : List (List Char) → List Char
  | [] => []
  | [l] => l
  | l :: l2 :: ls => l ++ '\n' :: joinNewline (l2 :: ls)

/-- Line view of a string, as str.split with a newline separator. -/
def lineSplit (s : String) : List String :=
  (splitOnNewline s.data).map String.mk

/-- Space or tab, the indent characters textwrap.dedent considers. -/
def isIndentChar (c : Char) : Bool := c = ' ' || c = '\t'

/-- Longest common prefix of two char lists. -/
def lcpChars : List Char → List Char → List Char
  | a :: as, b :: bs => if a = b then a :: lcpChars as bs else []
  | _, _ => []

/-- Models textwrap.dedent: lines consisting solely of whitespace are
normalised to empty lines; the margin is the longest common prefix of
the leading space-and-tab runs of the lines that contain other
characters; the margin is then removed from the start of every line on
which it occurs. -/
def dedent (s : String) : String :=
  let lines := splitOnNewline s.data
  let lines1 := lines.map (fun l => if !l.isEmpty && l.all isIndentChar then [] else l)
  let withText := lines1.filter (fun l => l.any (fun c => !isIndentChar c))
  let indents := withText.map (fun l => l.takeWhile isIndentChar)
  let margin :=
    match indents with
    | [] => []
    | i :: is => is.foldl lcpChars i
  let lines2 :=
    if margin.isEmpty then lines1
    else lines1.map (fun l =>
      match stripPrefixList margin l with
      | Option.some r => r
      | Option.none => l)
  String.mk (joinNewline lines2)

/-- Models the substitution on magazine.py line 298: every newline that
is neither preceded nor followed by another newline becomes a space.
The lookbehind and lookahead test the original text, so the previous
character is tracked from the input, not from the output. -/
def collapseAux : Option Char → List Char → List Char
  | _, [] => []
  | prev, c :: rest =>
    if c = '\n' then
      if prev = Option.some '\n' then '\n' :: collapseAux (Option.some '\n') rest
      else
        match rest with
        | '\n' :: _ => '\n' :: collapseAux (Option.some '\n') rest
        | _ => ' ' :: collapseAux (Option.some '\n') rest
    else c :: collapseAux (Option.some c) rest

/-- Removal of single newlines from a report text. -/
def collapseSingleNewlines (s : String) : String :=
  String.mk (collapseAux Option.none s.data)

/-- Magazine.reporting._parse_docstring (magazine.py lines 285-316).  A
present Report section is substituted through format_map with the
SafeDict parameters, dedented, stripped of single newlines and reported
to the topic; a present References section is dedented, split on
newlines and passed to cite.  A missing docstring only logs a warning.
Option.none models a ValueError escaping from format_map. -/
def parse_docstring (params : List (String × String)) (topic : String)
    (doc : Option String) (st : State) : Option State :=
  match doc with
  | Option.some d =>
    let st1opt :=
      match searchSection "Report" d with
      | Option.some body =>
        match format_map body params with
        | Option.some t1 =>
          report topic (PyMsg.str (collapseSingleNewlines (dedent t1))) [] st
        | Option.none => Option.none
      | Option.none => Option.some st
    match st1opt with
    | Option.none => Option.none
    | Option.some st1 =>
      match searchSection "References" d with
      | Option.some body => Option.some (cite (lineSplit (dedent body)) st1)
      | Option.none => Option.some st1
  | Option.none => Option.some st

/-- Python exceptions distinguished by the wrapper model. -/
inductive PyExc where
  | unboundLocalError (name : String)
  | userError (msg : String)
deriving DecidableEq, Repr

/-- Insert or overwrite one key of the parameters dict. -/
def setKey (k v : String) : List (String × String) → List (String × String)
  | [] => [(k, v)]
  | (k2, w) :: rest => if k2 = k then (k2, v) :: rest else (k2, w) :: setKey k v rest

/-- The wrapper body built by Magazine.reporting.__call__ (magazine.py
lines 256-283), with the locals made explicit.  Line 262 installs the
scratch key in the globals of the wrapped function (modelled by the
returned Bool).  Lines 265-266 store the function name and the repr of
the positional arguments in the SafeDict.  Line 267 then assigns
self.parameters of key return from the local variable result, but result
is a local of wrapper that is first assigned only by the call on line
274, so the read raises UnboundLocalError before the wrapped function,
the try block and the finally cleanup are ever reached; the state of the
Note Store is untouched and the scratch key stays installed.  The
remainder of the body is transcribed in the unreachable branch: kwargs
insertion, the guarded call with cleanup, docstring parsing, and the
return of the original result. -/
def reporting_wrapper_call {α : Type} (topic funcName : String) (funcDoc : Option String)
    (params0 : List (String × String)) (argsRepr : String)
    (kwargs : List (String × String)) (retRepr : α → String)
    (body : Except PyExc α) (st : State) :
    Except PyExc α × State × Bool :=
  let hasReport := true
  let params1 := setKey "function" funcName params0
  let params2 := setKey "args" argsRepr params1
  let result0 : Option α := Option.none
  match result0 with
  | Option.none => (Except.error (PyExc.unboundLocalError "result"), st, hasReport)
  | Option.some r =>
    let params3 := setKey "return" (retRepr r) params2
    let params4 := kwargs.foldl (fun mp kv => setKey kv.1 kv.2 mp) params3
    match body with
    | Except.error e => (Except.error e, st, false)
    | Except.ok result =>
      match parse_docstring params4 topic funcDoc st with
      | Option.some st2 => (Except.ok result, st2, false)
      | Option.none => (Except.error (PyExc.userError "ValueError"), st, false)

/-- A template token: one literal character or one named placeholder. -/
inductive Tok where
  | lit (c : Char)
  | ph (name : String)
deriving DecidableEq, Repr

/-- Text of a token inside a template: a placeholder renders as its name
between braces. -/
def tokString : Tok → String
  | Tok.lit c => String.mk [c]
  | Tok.ph n => String.mk (lbrace :: n.data ++ [rbrace])

/-- A template rendered from tokens. -/
def renderTemplate : List Tok → String
  | [] => ""
  | t :: ts => tokString t ++ renderTemplate ts

/-- The substitution the claim describes for one token: a placeholder
whose key is present is replaced by the value, a placeholder whose key
is absent stays as the literal placeholder text. -/
def substTok (m : List (String × String)) : Tok → String
  | Tok.lit c => String.mk [c]
  | Tok.ph n =>
    match lookupAssoc m n with
    | Option.some v => v
    | Option.none => String.mk (lbrace :: n.data ++ [rbrace])

/-- Token-by-token substitution of a whole template. -/
def substTemplate (m : List (String × String)) : List Tok → String
  | [] => ""
  | t :: ts => substTok m t ++ substTemplate m ts

/-- Well-formed tokens of the named-placeholder fragment: a literal char
is not a brace; a placeholder name is nonempty, not all digits, and free
of braces and of the conversion, spec, attribute and index markers. -/
def goodTok : Tok → Bool
  | Tok.lit c => !(c = lbrace) && !(c = rbrace)
  | Tok.ph n =>
    !n.data.isEmpty && !(n.data.all Char.isDigit)
      && n.data.all (fun c =>
           !(c = lbrace) && !(c = rbrace) && !(c = '!') && !(c = ':')
             && !(c = '.') && !(c = '['))

/-- The store operations named by the topic-universe invariant: explicit
topic creation, report (which covers add_note and add_figure), the two
read operations, and the bulk reset. -/
inductive Op where
  | assertT (t : String)
  | reportOp (t : String) (m : PyMsg) (vs : List PyVal)
  | postOp (ts : List String)
  | figureOp (ts : List String)
  | cleanOp

/-- State transition of one store operation.  When report raises inside
message.format, the exception propagates in Python but the state mutation
already performed by assert_topic persists, so the resulting state is the
asserted one. -/
def step (st : State) : Op → State
  | Op.assertT t => assert_topic t st
  | Op.reportOp t m vs =>
    match report t m vs st with
    | Option.some st2 => st2
    | Option.none => assert_topic t st
  | Op.postOp ts => (post ts st).2
  | Op.figureOp ts => (figure ts st).2
  | Op.cleanOp => clean st

/-! Basic lemmas about the association-list model of Python dicts. -/

theorem lookupAssoc_append_single (m : List (String × α)) (t : String) (v : α) (u : String) :
    lookupAssoc (m ++ [(t, v)]) u =
      match lookupAssoc m u with
      | Option.some w => Option.some w
      | Option.none => if t = u then Option.some v else Option.none := by
  induction m with
  | nil => simp [lookupAssoc]
  | cons p rest ih =>
    obtain ⟨k2, w⟩ := p
    by_cases h : k2 = u
    · simp [lookupAssoc, h]
    · simp [lookupAssoc, h, ih]

theorem lookupAssoc_appendAssoc (k : String) (x : α) (m : List (String × List α))
    (u : String) :
    lookupAssoc (appendAssoc k x m) u =
      if k = u then (lookupAssoc m u).map (fun l => l ++ [x]) else lookupAssoc m u := by
  induction m with
  | nil => simp [lookupAssoc, appendAssoc]
  | cons p rest ih =>
    obtain ⟨k2, w⟩ := p
    by_cases hk : k2 = k
    · subst hk
      by_cases hu : k2 = u
      · simp [appendAssoc, lookupAssoc, hu]
      · simp [appendAssoc, lookupAssoc, hu, ih]
    · by_cases hu : k2 = u
      · subst hu
        have hne : k ≠ k2 := fun h => hk h.symm
        simp [appendAssoc, lookupAssoc, hk, hne]
      · simp [appendAssoc, lookupAssoc, hk, hu, ih]

theorem map_fst_appendAssoc (k : String) (x : α) (m : List (String × List α)) :
    (appendAssoc k x m).map Prod.fst = m.map Prod.fst := by
  induction m with
  | nil => rfl
  | cons p rest ih =>
    obtain ⟨k2, w⟩ := p
    by_cases h : k2 = k
    · simp [appendAssoc, h]
    · simp [appendAssoc, h, ih]

theorem any_keys_iff (m : List (String × α)) (t : String) :
    m.any (fun p => p.1 == t) = true ↔ t ∈ m.map Prod.fst := by
  simp [List.any_eq_true, List.mem_map]

theorem lookupAssoc_eq_none_iff (m : List (String × α)) (t : String) :
    lookupAssoc m t = Option.none ↔ t ∉ m.map Prod.fst := by
  induction m with
  | nil => simp [lookupAssoc]
  | cons p rest ih =>
    obtain ⟨k2, w⟩ := p
    by_cases h : k2 = t
    · simp [lookupAssoc, h]
    · simp [lookupAssoc, h, ih, Ne.symm h]

theorem lookupAssoc_isSome_of_mem (m : List (String × α)) (t : String)
    (h : t ∈ m.map Prod.fst) : ∃ l, lookupAssoc m t = Option.some l := by
  rcases he : lookupAssoc m t with _ | l
  · exact absurd ((lookupAssoc_eq_none_iff m t).mp he) (by simp [h])
  · exact ⟨l, rfl⟩

/-! Lemmas about assert_topic and the recording operations. -/

theorem assert_topic_of_mem (t : String) (st : State)
    (h : t ∈ st.topics.map Prod.fst) : assert_topic t st = st := by
  simp [assert_topic, (any_keys_iff st.topics t).mpr h]

theorem assert_topic_of_not_mem (t : String) (st : State)
    (h : t ∉ st.topics.map Prod.fst) :
    assert_topic t st = { st with
      topics := st.topics ++ [(t, [])],
      figures := st.figures ++ [(t, [])] } := by
  have : st.topics.any (fun p => p.1 == t) = false := by
    rcases hb : st.topics.any (fun p => p.1 == t) with _ | _
    · rfl
    · exact absurd ((any_keys_iff st.topics t).mp hb) h
  simp [assert_topic, this]

theorem assert_topic_lookup_topics (t : String) (st : State) :
    lookupAssoc (assert_topic t st).topics t = Option.some (topicNotes t st) := by
  by_cases h : t ∈ st.topics.map Prod.fst
  · obtain ⟨l, hl⟩ := lookupAssoc_isSome_of_mem st.topics t h
    simp [assert_topic_of_mem t st h, topicNotes, hl]
  · have hn : lookupAssoc st.topics t = Option.none := (lookupAssoc_eq_none_iff _ _).mpr h
    simp [assert_topic_of_not_mem t st h, lookupAssoc_append_single, hn, topicNotes]

theorem assert_topic_lookup_figures_of_not_mem (t : String) (st : State)
    (htop : t ∉ st.topics.map Prod.fst) (hfig : lookupAssoc st.figures t = Option.none) :
    lookupAssoc (assert_topic t st).figures t = Option.some [] := by
  simp [assert_topic_of_not_mem t st htop, lookupAssoc_append_single, hfig]

theorem assert_topic_topicNotes (t : String) (st : State) :
    topicNotes t (assert_topic t st) = topicNotes t st := by
  simp [topicNotes, assert_topic_lookup_topics]

theorem assert_topic_topicFigures (t : String) (st : State) :
    topicFigures t (assert_topic t st) = topicFigures t st := by
  by_cases h : t ∈ st.topics.map Prod.fst
  · simp [assert_topic_of_mem t st h]
  · simp [topicFigures, assert_topic_of_not_mem t st h, lookupAssoc_append_single]
    rcases hf : lookupAssoc st.figures t with _ | l <;> simp

theorem assert_topic_frame (t : String) (st : State) (u : String) (hu : u ≠ t) :
    lookupAssoc (assert_topic t st).topics u = lookupAssoc st.topics u
    ∧ lookupAssoc (assert_topic t st).figures u = lookupAssoc st.figures u := by
  by_cases h : t ∈ st.topics.map Prod.fst
  · simp [assert_topic_of_mem t st h]
  · constructor <;>
      simp [assert_topic_of_not_mem t st h, lookupAssoc_append_single, Ne.symm hu] <;>
      rcases lookupAssoc _ u with _ | l <;> simp [Ne.symm hu]

theorem assert_topic_mem_topics (t : String) (st : State) :
    t ∈ (assert_topic t st).topics.map Prod.fst := by
  by_cases h : t ∈ st.topics.map Prod.fst
  · simpa [assert_topic_of_mem t st h] using h
  · simp [assert_topic_of_not_mem t st h]

theorem assert_topic_refs_dois (t : String) (st : State) :
    (assert_topic t st).references = st.references
    ∧ (assert_topic t st).dois = st.dois := by
  by_cases h : t ∈ st.topics.map Prod.fst
  · simp [assert_topic_of_mem t st h]
  · simp [assert_topic_of_not_mem t st h]

/-- Characterisation of cite over a list of arguments: the identifier
matches land in dois, the rest land verbatim in references, and the topic
maps are untouched. -/
theorem cite_spec (refs : List String) (st : State) :
    (cite refs st).dois = st.dois ++ refs.filter doiSearch
    ∧ (cite refs st).references = st.references ++ refs.filter (fun r => !doiSearch r)
    ∧ (cite refs st).topics = st.topics
    ∧ (cite refs st).figures = st.figures := by
  induction refs generalizing st with
  | nil => simp [cite]
  | cons r rs ih =>
    have hstep :
        cite (r :: rs) st =
          cite rs (if doiSearch r then { st with dois := st.dois ++ [r] }
                   else { st with references := st.references ++ [r] }) := rfl
    by_cases h : doiSearch r
    · have := ih { st with dois := st.dois ++ [r] }
      simp [hstep, h, this.1, this.2.1, this.2.2.1, this.2.2.2]
    · have := ih { st with references := st.references ++ [r] }
      simp [hstep, h, this.1, this.2.1, this.2.2.1, this.2.2.2]

/-- Unfolding of Magazine.report for a str message with a nonempty values
tuple whose formatting succeeds. -/
theorem report_str_format (t s : String) (vs : List PyVal) (st : State) (msg : String)
    (hvs : vs.isEmpty = false)
    (hfmt : format_pos s
        ((vs.map (fun v => if v = PyVal.none then PyVal.nan else v)).map pyvalToStr)
      = Option.some msg) :
    report t (PyMsg.str s) vs st =
      Option.some { assert_topic t st with
                    topics := appendAssoc t msg (assert_topic t st).topics } := by
  have hfmt2 : format_pos s
      (vs.map (pyvalToStr ∘ fun v => if v = PyVal.none then PyVal.nan else v))
      = Option.some msg := by
    rw [← List.map_map]; exact hfmt
  simp [report, hvs, hfmt2]

/-- Unfolding of Magazine.report for a str message with no values. -/
theorem report_str_plain (t s : String) (st : State) :
    report t (PyMsg.str s) [] st =
      Option.some { assert_topic t st with
                    topics := appendAssoc t s (assert_topic t st).topics } := by
  simp [report]

/-- Notes observable after appending one note to an asserted topic. -/
theorem topicNotes_append (t msg : String) (st : State) :
    topicNotes t { assert_topic t st with
                   topics := appendAssoc t msg (assert_topic t st).topics }
      = topicNotes t st ++ [msg] := by
  simp [topicNotes, lookupAssoc_appendAssoc, assert_topic_lookup_topics]

/-- C7: every argument of cite goes to exactly one of the two collections,
identifier matches to dois and everything else verbatim to references,
and the combined growth accounts for every argument. -/
theorem cite_routes_each_argument (refs : List String) (st : State) :
    (cite refs st).dois = st.dois ++ refs.filter doiSearch
    ∧ (cite refs st).references = st.references ++ refs.filter (fun r => !doiSearch r)
    ∧ (cite refs st).dois.length + (cite refs st).references.length
        = st.dois.length + st.references.length + refs.length := by
  obtain ⟨hd, hr, -, -⟩ := cite_spec refs st
  refine ⟨hd, hr, ?_⟩
  have hlen := @List.length_eq_length_filter_add String refs doiSearch
  simp [hd, hr]
  omega

/-- C8: reporting a None value never raises; the None is replaced by
np.nan before positional formatting, and the note stored under the topic
reads Value is nan. -/
theorem report_none_value_stores_nan (st : State) (t : String) :
    ∃ st2, report t (PyMsg.str "Value is \x7b\x7d.") [PyVal.none] st = Option.some st2
      ∧ topicNotes t st2 = topicNotes t st ++ ["Value is nan."] := by
  refine ⟨_, report_str_format t _ [PyVal.none] st "Value is nan." rfl rfl, ?_⟩
  exact topicNotes_append t "Value is nan." st

/-- C10: reporting a message that is neither text nor a figure handle
returns normally after only asserting the topic: nothing is appended to
any note or figure list, the topic exists in both maps afterwards, every
other topic is untouched, and the reference and identifier collections
are unchanged. -/
theorem report_other_only_asserts (st : State) (t r : String) (vs : List PyVal)
    (h : st.topics.map Prod.fst = st.figures.map Prod.fst) :
    ∃ st2, report t (PyMsg.other r) vs st = Option.some st2
      ∧ topicNotes t st2 = topicNotes t st
      ∧ topicFigures t st2 = topicFigures t st
      ∧ t ∈ st2.topics.map Prod.fst ∧ t ∈ st2.figures.map Prod.fst
      ∧ (∀ u, u ≠ t → lookupAssoc st2.topics u = lookupAssoc st.topics u)
      ∧ (∀ u, u ≠ t → lookupAssoc st2.figures u = lookupAssoc st.figures u)
      ∧ st2.references = st.references ∧ st2.dois = st.dois := by
  refine ⟨assert_topic t st, by simp [report], assert_topic_topicNotes t st,
    assert_topic_topicFigures t st, assert_topic_mem_topics t st, ?_,
    fun u hu => (assert_topic_frame t st u hu).1,
    fun u hu => (assert_topic_frame t st u hu).2,
    (assert_topic_refs_dois t st).1, (assert_topic_refs_dois t st).2⟩
  by_cases hm : t ∈ st.topics.map Prod.fst
  · rw [assert_topic_of_mem t st hm, ← h]; exact hm
  · simp [assert_topic_of_not_mem t st hm]

/-- Witness for C10 at a concrete input. -/
theorem report_other_only_asserts_witness :
    (Magazine.initState.topics.map Prod.fst = Magazine.initState.figures.map Prod.fst)
    ∧ ∃ st2, report "top" (PyMsg.other "obj") [] Magazine.initState = Option.some st2
      ∧ topicNotes "top" st2 = topicNotes "top" Magazine.initState
      ∧ topicFigures "top" st2 = topicFigures "top" Magazine.initState
      ∧ "top" ∈ st2.topics.map Prod.fst ∧ "top" ∈ st2.figures.map Prod.fst
      ∧ (∀ u, u ≠ "top" → lookupAssoc st2.topics u = lookupAssoc Magazine.initState.topics u)
      ∧ (∀ u, u ≠ "top" → lookupAssoc st2.figures u = lookupAssoc Magazine.initState.figures u)
      ∧ st2.references = Magazine.initState.references
      ∧ st2.dois = Magazine.initState.dois :=
  ⟨rfl, report_other_only_asserts Magazine.initState "top" "obj" [] rfl⟩

/-- Observable form of report_str_plain. -/
theorem report_str_plain_obs (t s : String) (st : State) :
    ∃ st2, report t (PyMsg.str s) [] st = Option.some st2
      ∧ topicNotes t st2 = topicNotes t st ++ [s] :=
  ⟨_, report_str_plain t s st, topicNotes_append t s st⟩

/-- Joining a singleton list of strings returns its only element. -/
theorem intercalate_single (s x : String) : String.intercalate s [x] = x := by
  show String.intercalate.go x s [] = x
  unfold String.intercalate.go
  simp

/-- Reading a single topic joins its notes with single spaces. -/
theorem post_single (t : String) (st : State) :
    (post [t] st).1 = String.intercalate " " (topicNotes t st) := by
  simp [post, postAux, assert_topic_lookup_topics, intercalate_single]

/-- C9: reporting the text a and then the text b to a topic with no notes
yields the read string a b; per topic the notes are joined with one
space, and the single-topic read returns exactly that join. -/
theorem report_then_post (st : State) (t : String) (h : topicNotes t st = []) :
    ((report t (PyMsg.str "a") [] st).bind (report t (PyMsg.str "b") [])).map
        (fun s2 => (post [t] s2).1) = Option.some "a b" := by
  obtain ⟨st1, e1, n1⟩ := report_str_plain_obs t "a" st
  obtain ⟨st2, e2, n2⟩ := report_str_plain_obs t "b" st1
  rw [e1, Option.some_bind, e2]
  simp only [Option.map_some']
  rw [post_single, n2, n1, h]
  rfl

/-- Witness for C9 at the initial state. -/
theorem report_then_post_witness :
    topicNotes "t" initState = []
    ∧ ((report "t" (PyMsg.str "a") [] initState).bind
        (report "t" (PyMsg.str "b") [])).map (fun s2 => (post ["t"] s2).1)
      = Option.some "a b" :=
  ⟨rfl, report_then_post initState "t" rfl⟩

/-! Lemmas for the topic-universe invariant. -/

theorem assert_topic_inv (t : String) (st : State)
    (h : st.topics.map Prod.fst = st.figures.map Prod.fst) :
    (assert_topic t st).topics.map Prod.fst = (assert_topic t st).figures.map Prod.fst := by
  by_cases hm : t ∈ st.topics.map Prod.fst
  · simpa [assert_topic_of_mem t st hm] using h
  · simp [assert_topic_of_not_mem t st hm, h]

theorem report_keys (t : String) (m : PyMsg) (vs : List PyVal) (st st2 : State)
    (h : report t m vs st = Option.some st2) :
    st2.topics.map Prod.fst = (assert_topic t st).topics.map Prod.fst
    ∧ st2.figures.map Prod.fst = (assert_topic t st).figures.map Prod.fst := by
  cases m with
  | str s =>
    by_cases hv : vs.isEmpty
    · simp [report, hv] at h
      rw [← h]
      simp [map_fst_appendAssoc]
    · rcases hf : format_pos s
          (vs.map (pyvalToStr ∘ fun v => if v = PyVal.none then PyVal.nan else v))
        with _ | msg
      · have hnone : report t (PyMsg.str s) vs st = Option.none := by
          simp [report, hv, hf]
        rw [hnone] at h
        cases h
      · have hfmt : format_pos s
            ((vs.map (fun v => if v = PyVal.none then PyVal.nan else v)).map pyvalToStr)
            = Option.some msg := by
          rw [List.map_map]; exact hf
        rw [report_str_format t s vs st msg (by simpa using hv) hfmt] at h
        obtain rfl := Option.some.inj h
        simp [map_fst_appendAssoc]
  | bytesIO hdl =>
    simp [report] at h
    rw [← h]
    simp [map_fst_appendAssoc]
  | other r =>
    simp [report] at h
    rw [← h]
    exact ⟨rfl, rfl⟩

theorem postAux_state (ts : List String) (st : State) (acc : List String) :
    (postAux ts st acc).2 = ts.foldl (fun s t => assert_topic t s) st := by
  induction ts generalizing st acc with
  | nil => rfl
  | cons t ts ih => simp [postAux, ih]

theorem figureAux_state (ts : List String) (st : State) (acc : List Nat) :
    (figureAux ts st acc).2 = ts.foldl (fun s t => assert_topic t s) st := by
  induction ts generalizing st acc with
  | nil => rfl
  | cons t ts ih => simp [figureAux, ih]

theorem assert_fold_inv (ts : List String) (st : State)
    (h : st.topics.map Prod.fst = st.figures.map Prod.fst) :
    (ts.foldl (fun s t => assert_topic t s) st).topics.map Prod.fst
      = (ts.foldl (fun s t => assert_topic t s) st).figures.map Prod.fst := by
  induction ts generalizing st with
  | nil => exact h
  | cons t ts ih => exact ih _ (assert_topic_inv t st h)

theorem step_inv (st : State) (op : Op)
    (h : st.topics.map Prod.fst = st.figures.map Prod.fst) :
    (step st op).topics.map Prod.fst = (step st op).figures.map Prod.fst := by
  cases op with
  | assertT t => exact assert_topic_inv t st h
  | reportOp t m vs =>
    rcases hr : report t m vs st with _ | st2
    · simpa [step, hr] using assert_topic_inv t st h
    · have hk := report_keys t m vs st st2 hr
      simp only [step, hr]
      rw [hk.1, hk.2]
      exact assert_topic_inv t st h
  | postOp ts =>
    simp only [step, post, postAux_state]
    exact assert_fold_inv ts st h
  | figureOp ts =>
    simp only [step, figure, figureAux_state]
    exact assert_fold_inv ts st h
  | cleanOp => rfl

theorem foldl_step_inv (ops : List Op) (st : State)
    (h : st.topics.map Prod.fst = st.figures.map Prod.fst) :
    (ops.foldl step st).topics.map Prod.fst = (ops.foldl step st).figures.map Prod.fst := by
  induction ops generalizing st with
  | nil => exact h
  | cons op ops ih => exact ih _ (step_inv st op h)

theorem step_post_single (t : String) (st : State) :
    step st (Op.postOp [t]) = assert_topic t st := by
  simp [step, post, postAux_state]

/-- C5: after every sequence of store operations starting from the empty
state, the notes map and the figures map have exactly the same topic
keys, and reading an unknown topic through post creates an empty entry
for it in both maps. -/
theorem topic_maps_keys_agree (ops : List Op) :
    ((ops.foldl step initState).topics.map Prod.fst
      = (ops.foldl step initState).figures.map Prod.fst)
    ∧ ∀ t, lookupAssoc (ops.foldl step initState).topics t = Option.none →
        lookupAssoc (step (ops.foldl step initState) (Op.postOp [t])).topics t
          = Option.some []
        ∧ lookupAssoc (step (ops.foldl step initState) (Op.postOp [t])).figures t
          = Option.some [] := by
  have hinv := foldl_step_inv ops initState rfl
  refine ⟨hinv, fun t ht => ?_⟩
  have hmem : t ∉ (ops.foldl step initState).topics.map Prod.fst :=
    (lookupAssoc_eq_none_iff _ t).mp ht
  have hfig : lookupAssoc (ops.foldl step initState).figures t = Option.none :=
    (lookupAssoc_eq_none_iff _ t).mpr (by rw [← hinv]; exact hmem)
  rw [step_post_single]
  constructor
  · rw [assert_topic_lookup_topics]
    simp [topicNotes, ht]
  · exact assert_topic_lookup_figures_of_not_mem t _ hmem hfig

/-- Witness for C5 at a concrete operation sequence and topic. -/
theorem topic_maps_keys_agree_witness :
    (([Op.reportOp "x" (PyMsg.str "hi") []].foldl step initState).topics.map Prod.fst
      = ([Op.reportOp "x" (PyMsg.str "hi") []].foldl step initState).figures.map Prod.fst)
    ∧ lookupAssoc (step ([Op.reportOp "x" (PyMsg.str "hi") []].foldl step initState)
          (Op.postOp ["y"])).topics "y" = Option.some []
    ∧ lookupAssoc (step ([Op.reportOp "x" (PyMsg.str "hi") []].foldl step initState)
          (Op.postOp ["y"])).figures "y" = Option.some [] := by
  have h := topic_maps_keys_agree [Op.reportOp "x" (PyMsg.str "hi") []]
  exact ⟨h.1, h.2 "y" rfl⟩

/-- C2: calling collect_references twice is not idempotent in output.
The local reflist aliases the references list, so the first call stores
the resolved texts into it, and because the dois list is deduplicated but
never emptied, the second call resolves the same identifier again and
returns the resolved text twice. -/
theorem collect_references_not_output_idempotent :
    (collect_references constResolve
        { topics := [], figures := [], references := ["b"], dois := ["10.1000/xy"] }).1
      = ["a", "b"]
    ∧ (collect_references constResolve
        (collect_references constResolve
          { topics := [], figures := [], references := ["b"], dois := ["10.1000/xy"] }).2).1
      = ["a", "a", "b"]
    ∧ (collect_references constResolve
        (collect_references constResolve
          { topics := [], figures := [], references := ["b"], dois := ["10.1000/xy"] }).2).1
      ≠ (collect_references constResolve
          { topics := [], figures := [], references := ["b"], dois := ["10.1000/xy"] }).1 :=
  ⟨rfl, rfl, by decide⟩

/-- C1, evaluated at the failing input: wrapping a function whose
docstring carries the Report section and whose body returns 5, the call
does not complete normally and stores no note; it raises
UnboundLocalError on the read of the local result on line 267, before
the wrapped function is ever invoked, and it leaves the scratch key
installed because the cleanup is never reached. -/
theorem autoreport_call_raises_unbound :
    reporting_wrapper_call "t" "f"
        (Option.some "Report\n------\nResult: \x7breturn\x7d.")
        [] "()" [] (fun n : Int => toString n) (Except.ok 5) initState
      = (Except.error (PyExc.unboundLocalError "result"), initState, true) := rfl

/-- C3, evaluated at the failing input: when the wrapped body would raise
a user exception, the caller does not observe that exception; it
observes the UnboundLocalError raised before the body runs.  The Note
Store is indeed left without any note, but for the wrong reason. -/
theorem wrapped_exception_not_propagated :
    (reporting_wrapper_call "t" "f" (Option.some "Report\n------\nBoom.")
        [] "()" [] (fun n : Int => toString n)
        (Except.error (PyExc.userError "boom")) initState).1
      = Except.error (PyExc.unboundLocalError "result")
    ∧ (reporting_wrapper_call "t" "f" (Option.some "Report\n------\nBoom.")
        [] "()" [] (fun n : Int => toString n)
        (Except.error (PyExc.userError "boom")) initState).1
      ≠ Except.error (PyExc.userError "boom")
    ∧ (reporting_wrapper_call "t" "f" (Option.some "Report\n------\nBoom.")
        [] "()" [] (fun n : Int => toString n)
        (Except.error (PyExc.userError "boom")) initState).2.1
      = initState := by
  refine ⟨rfl, ?_, rfl⟩
  intro h
  injection h with h1
  exact PyExc.noConfusion h1

/-- C4 counterexample: a References section whose capture ends at the end
of the docstring with a trailing newline splits into a final empty line;
that empty line is passed to cite, which stores it verbatim, so the
empty string enters the reference collection through this path. -/
theorem parse_docstring_cites_empty_line :
    (parse_docstring [] "t" (Option.some "References\n----------\na\n") initState).map
        State.references
      = Option.some ["a", ""] := rfl

/-- C4 amended: the wrapper splits the References section into lines and
forwards every line, empty lines included, to cite; cite routes each
line, so every non-identifier line, including an empty one, lands
verbatim in the reference collection. -/
theorem parse_docstring_cites_all_lines (params : List (String × String))
    (topic doc body : String) (st : State)
    (hrep : searchSection "Report" doc = Option.none)
    (href : searchSection "References" doc = Option.some body) :
    ∃ st2, parse_docstring params topic (Option.some doc) st = Option.some st2
      ∧ st2.references = st.references
          ++ (lineSplit (dedent body)).filter (fun l => !doiSearch l)
      ∧ st2.dois = st.dois ++ (lineSplit (dedent body)).filter doiSearch := by
  refine ⟨cite (lineSplit (dedent body)) st, ?_, (cite_spec _ st).2.1, (cite_spec _ st).1⟩
  simp [parse_docstring, hrep, href]

/-- Witness for the amended C4 at the concrete counterexample input. -/
theorem parse_docstring_cites_all_lines_witness :
    searchSection "Report" "References\n----------\na\n" = Option.none
    ∧ searchSection "References" "References\n----------\na\n" = Option.some "a\n"
    ∧ ∃ st2, parse_docstring [] "t" (Option.some "References\n----------\na\n") initState
          = Option.some st2
        ∧ st2.references = initState.references
            ++ ((lineSplit (dedent "a\n")).filter (fun l => !doiSearch l))
        ∧ st2.dois = initState.dois ++ ((lineSplit (dedent "a\n")).filter doiSearch) :=
  ⟨rfl, rfl,
    parse_docstring_cites_all_lines [] "t" "References\n----------\na\n" "a\n" initState
      rfl rfl⟩

/-! Lemmas relating the format_map scanner to token-level substitution. -/

theorem fmAux_lit (m : List (String × String)) (c : Char) (rest : List Char)
    (h1 : ¬ c = lbrace) (h2 : ¬ c = rbrace) :
    fmAux m (c :: rest) = (fmAux m rest).map (fun t => c :: t) := by
  rw [fmAux.eq_def]
  simp [h1, h2]

theorem fmField_spec (m : List (String × String)) (nm : List Char) (acc rest : List Char)
    (h : ∀ c ∈ nm, ¬ c = rbrace) :
    fmField m acc (nm ++ rbrace :: rest) =
      if badFieldName (acc ++ nm) then Option.none
      else (fmAux m rest).map
        (fun t => (lookupSafe m (String.mk (acc ++ nm))).data ++ t) := by
  induction nm generalizing acc with
  | nil =>
    rw [fmField.eq_def]
    simp
  | cons d nd ih =>
    have hd : ¬ d = rbrace := h d (by simp)
    rw [fmField.eq_def]
    simp only [List.cons_append, hd, if_false, ite_false]
    rw [ih (acc ++ [d]) (fun c hc => h c (by simp [hc]))]
    simp [List.append_assoc]

theorem goodTok_ph_parts (n : String) (hg : goodTok (Tok.ph n) = true) :
    n.data ≠ [] ∧ n.data.all Char.isDigit = false
    ∧ ∀ c ∈ n.data, ¬ c = lbrace ∧ ¬ c = rbrace ∧ ¬ c = '!' ∧ ¬ c = ':'
        ∧ ¬ c = '.' ∧ ¬ c = '[' := by
  simp only [goodTok, Bool.and_eq_true, Bool.not_eq_true', List.all_eq_true,
    Bool.and_eq_true, decide_eq_true_eq, Bool.not_eq_true, decide_eq_false_iff_not,
    List.isEmpty_eq_false] at hg
  obtain ⟨⟨hne, hdig⟩, hchars⟩ := hg
  refine ⟨hne, hdig, fun c hc => ?_⟩
  have hx := hchars c hc
  tauto

theorem badFieldName_of_good (n : String) (hg : goodTok (Tok.ph n) = true) :
    badFieldName n.data = false := by
  obtain ⟨hne, hdig, hchars⟩ := goodTok_ph_parts n hg
  simp only [badFieldName, Bool.or_eq_false_iff, Bool.not_eq_false', List.all_eq_true]
  refine ⟨⟨by simp [List.isEmpty_eq_false, hne], by simp [hdig]⟩, fun c hc => ?_⟩
  obtain ⟨h1, -, h3, h4, h5, h6⟩ := hchars c hc
  simp [h1, h3, h4, h5, h6]

theorem fmAux_ph (m : List (String × String)) (n : String) (rest : List Char)
    (hg : goodTok (Tok.ph n) = true) :
    fmAux m (lbrace :: (n.data ++ rbrace :: rest)) =
      (fmAux m rest).map (fun t => (substTok m (Tok.ph n)).data ++ t) := by
  obtain ⟨hne, hdig, hchars⟩ := goodTok_ph_parts n hg
  rcases hd : n.data with _ | ⟨c2, nd⟩
  · exact absurd hd hne
  · have hc2 := hchars c2 (by rw [hd]; simp)
    rw [fmAux.eq_def]
    simp only [List.cons_append, if_pos rfl, hc2.1, if_false, ite_false]
    have hfield : fmField m [] (c2 :: (nd ++ rbrace :: rest)) =
        fmField m [] ((c2 :: nd) ++ rbrace :: rest) := by
      simp
    rw [hfield, fmField_spec m (c2 :: nd) [] rest
        (fun c hc => (hchars c (by rw [hd]; exact hc)).2.1)]
    have hbad : badFieldName ([] ++ c2 :: nd) = false := by
      have := badFieldName_of_good n hg
      rw [hd] at this
      simpa using this
    rw [hbad]
    simp only [if_false, ite_false, List.nil_append]
    have hmk : String.mk (c2 :: nd) = n := by
      rw [← hd]
    rw [hmk]
    rfl

theorem fmAux_tok (m : List (String × String)) (t : Tok) (rest : List Char)
    (hg : goodTok t = true) :
    fmAux m ((tokString t).data ++ rest) =
      (fmAux m rest).map (fun u => (substTok m t).data ++ u) := by
  cases t with
  | lit c =>
    have h1 : ¬ c = lbrace := by
      simp only [goodTok, Bool.and_eq_true, Bool.not_eq_true', decide_eq_false_iff_not] at hg
      exact hg.1
    have h2 : ¬ c = rbrace := by
      simp only [goodTok, Bool.and_eq_true, Bool.not_eq_true', decide_eq_false_iff_not] at hg
      exact hg.2
    show fmAux m (c :: rest) = _
    rw [fmAux_lit m c rest h1 h2]
    rfl
  | ph n =>
    show fmAux m ((lbrace :: n.data ++ [rbrace]) ++ rest) = _
    have : (lbrace :: n.data ++ [rbrace]) ++ rest = lbrace :: (n.data ++ rbrace :: rest) := by
      simp
    rw [this, fmAux_ph m n rest hg]

/-- C6: on every template assembled from brace-free literal characters
and well-formed named placeholders, and for every mapping, format_map
with the SafeDict semantics never fails and substitutes token by token:
each placeholder occurrence whose key is present is replaced exactly once
by its value, and each occurrence whose key is absent stays as the
literal placeholder text. -/
theorem format_map_safe (ts : List Tok) (m : List (String × String))
    (h : ∀ t ∈ ts, goodTok t = true) :
    format_map (renderTemplate ts) m = Option.some (substTemplate m ts) := by
  induction ts with
  | nil =>
    show (fmAux m ("" : String).data).map String.mk = Option.some ""
    rw [show ("" : String).data = [] from rfl]
    rw [show fmAux m [] = Option.some [] from by rw [fmAux.eq_def]]
    rfl
  | cons t ts ih =>
    have hts : ∀ x ∈ ts, goodTok x = true := fun x hx => h x (by simp [hx])
    have ht : goodTok t = true := h t (by simp)
    have ih2 : fmAux m (renderTemplate ts).data
        = Option.some (substTemplate m ts).data := by
      have hi := ih hts
      unfold format_map at hi
      rcases hx : fmAux m (renderTemplate ts).data with _ | l
      · rw [hx] at hi
        simp at hi
      · rw [hx] at hi
        simp only [Option.map_some'] at hi
        have h4 : l = (substTemplate m ts).data :=
          congrArg String.data (Option.some.inj hi)
        rw [h4]
    have hdata : (renderTemplate (t :: ts)).data
        = (tokString t).data ++ (renderTemplate ts).data :=
      String.data_append (tokString t) (renderTemplate ts)
    unfold format_map
    rw [hdata, fmAux_tok m t (renderTemplate ts).data ht, ih2]
    simp only [Option.map_some']
    rw [← String.data_append]
    rfl

/-- Witness for C6: a template with one present and one absent key. -/
theorem format_map_safe_witness :
    (∀ t ∈ [Tok.ph "x", Tok.lit ' ', Tok.ph "y"], goodTok t = true)
    ∧ format_map (renderTemplate [Tok.ph "x", Tok.lit ' ', Tok.ph "y"]) [("x", "1")]
        = Option.some (substTemplate [("x", "1")] [Tok.ph "x", Tok.lit ' ', Tok.ph "y"])
    ∧ substTemplate [("x", "1")] [Tok.ph "x", Tok.lit ' ', Tok.ph "y"] = "1 \x7by\x7d" :=
  ⟨by decide, format_map_safe [Tok.ph "x", Tok.lit ' ', Tok.ph "y"] [("x", "1")] (by decide),
    rfl⟩

end Magazine
